import Mathlib

/-!
Verification of the DocQuery AI retrieval-augmented summarization service
(`orchestrator.py`, `frontendApp.py`, `ocrService.py`).

The FastAPI orchestrator keeps all state in a Qdrant collection of points,
each carrying a payload with fields `text`, `filename` and `chunk_index`.
We embed that store as a `List StoredPoint` and translate each endpoint
handler into a pure Lean function over it.  The embedder and the Gemini
generator are black boxes: the embedder enters only through an abstract
per-point score function used by vector search, and the generator is an
arbitrary function `String → String`.  Generator invocations are made
observable by returning, next to an endpoint result, the list of calls the
handler issued (the prompt of each call, tagged by call site where the
spec distinguishes them).
-/

namespace DocQuery

/-- Payload stored with every Qdrant point, as written by `upload_text_chunk`
(`orchestrator.py` line 67): `{"text": ..., "filename": ..., "chunk_index": ...}`.
The only writer of `chunk_index` is the upload loop of `frontendApp.py`,
which produces 0-based `enumerate` indices, so we use `Nat`. -/
structure Payload where
  text : String
  filename : String
  chunk_index : Nat
deriving DecidableEq, Repr

/-- A point of the Qdrant collection.  The real id is a UUID string; all the
code needs is that ids are preserved and comparable, so we model them as
`Nat`. -/
structure StoredPoint where
  id : Nat
  payload : Payload
deriving DecidableEq, Repr

/-- An apostrophe character, used inside some of the orchestrator prompts. -/
def squote : String := String.singleton (Char.ofNat 39)

/-! ### Session management (`initialize_collection`, `new_session`) -/

/-- Models `initialize_collection` (`orchestrator.py` lines 26-35):
`recreate_collection` drops and recreates the collection, so the resulting
store is empty. -/
def init_collection : List StoredPoint := []

/-- `POST /new-session/` (`orchestrator.py` lines 55-61): recreates the
collection, discarding whatever the prior store held. -/
def new_session (prior : List StoredPoint) : List StoredPoint := init_collection

/-! ### Vector search

`qdrant_client.search` returns the `limit` stored points most similar to the
query vector (cosine similarity, higher first).  Embeddings and cosine
similarity are black boxes, so the search is parametrized by the score the
query assigns to each stored point; any deterministic descending sort models
the ranking. -/

/-- Descending-score comparison used to rank search results. -/
def byScoreDesc (score : StoredPoint → Int) (a b : StoredPoint) : Prop :=
  score b ≤ score a

instance (score : StoredPoint → Int) : DecidableRel (byScoreDesc score) :=
  fun a b => inferInstanceAs (Decidable (score b ≤ score a))

/-- `qdrant_client.search(collection_name=..., query_vector=..., limit=...)`:
the stored points ranked by descending score, truncated to `limit`. -/
def search (store : List StoredPoint) (score : StoredPoint → Int) (limit : Nat) :
    List StoredPoint :=
  (List.insertionSort (byScoreDesc score) store).take limit

/-! ### Chunk upload and document deletion -/

/-- Request model `TextChunk` (`orchestrator.py` lines 37-40). -/
structure TextChunk where
  chunk : String
  filename : String
  chunk_index : Nat
deriving DecidableEq, Repr

/-- Python's `str.strip()` on a character list: drop leading and trailing
whitespace. -/
def stripChars (cs : List Char) : List Char :=
  ((cs.dropWhile Char.isWhitespace).reverse.dropWhile Char.isWhitespace).reverse

/-- Python's `str.strip()`: the string with leading and trailing whitespace
removed. -/
def strip (s : String) : String := String.mk (stripChars s.data)

/-- The payload written for an uploaded chunk (`orchestrator.py` line 67):
note `item.filename.strip()` — the filename is stored with surrounding
whitespace removed, while `text` and `chunk_index` are stored as given. -/
def stored_payload (item : TextChunk) : Payload :=
  ⟨item.chunk, strip item.filename, item.chunk_index⟩

/-- `POST /upload-chunk/` (`orchestrator.py` lines 63-71): upserts one new
point with a fresh id and the stripped-filename payload. -/
def upload_text_chunk (store : List StoredPoint) (newId : Nat) (item : TextChunk) :
    List StoredPoint :=
  store ++ [⟨newId, stored_payload item⟩]

/-- Qdrant payload-field lookup used by filter conditions.  A
`FieldCondition.key` names a payload field (dot notation descends into
nested objects).  The stored payloads are flat objects with string fields
`text` and `filename` (and the integer `chunk_index`); any other key — in
particular the dotted path `payload.filename`, which would require a nested
`payload` object inside the payload — resolves to nothing. -/
def payloadLookup (p : Payload) (key : String) : Option String :=
  if key = "text" then some p.text
  else if key = "filename" then some p.filename
  else none

/-- The filter of `delete_document` (`orchestrator.py` line 76):
`FieldCondition(key="payload.filename", match=MatchValue(value=request.filename))`.
The match value is the request filename exactly as given (no strip). -/
def matchesDeleteFilter (fname : String) (p : Payload) : Bool :=
  payloadLookup p "payload.filename" == some fname

/-- `POST /delete-document/` (`orchestrator.py` lines 73-79): deletes every
point whose payload satisfies the filter, then reports success. -/
def delete_document (store : List StoredPoint) (fname : String) : List StoredPoint :=
  store.filter (fun pt => !(matchesDeleteFilter fname pt.payload))

/-! ### Ordering chunks of one document by ordinal

`summarize_all_documents` restores document order with
`sorted(chunks, key=lambda c: c.get('chunk_index', 0))` (`orchestrator.py`
line 106).  Python's `sorted` is a stable comparison sort on the key; we
model it with `List.insertionSort` on the same key, which has identical
input/output behaviour (both are stable sorts by `chunk_index`). -/

/-- Key order used by the per-document chunk sort. -/
def chunkLE (a b : Payload) : Prop := a.chunk_index ≤ b.chunk_index

/-- Strict version of `chunkLE`, used to show the sort result is unique when
the ordinals of the input are pairwise distinct. -/
def chunkLT (a b : Payload) : Prop := a.chunk_index < b.chunk_index

instance : DecidableRel chunkLE :=
  fun a b => inferInstanceAs (Decidable (a.chunk_index ≤ b.chunk_index))

instance : IsTotal Payload chunkLE :=
  ⟨fun a b => Nat.le_total a.chunk_index b.chunk_index⟩

instance : IsTrans Payload chunkLE :=
  ⟨fun _ _ _ hab hbc => Nat.le_trans hab hbc⟩

instance : IsAntisymm Payload chunkLT :=
  ⟨fun _ _ h h2 => absurd (Nat.lt_trans h h2) (Nat.lt_irrefl _)⟩

/-- `sorted_chunks` (`orchestrator.py` line 106). -/
def sorted_chunks (chunks : List Payload) : List Payload :=
  List.insertionSort chunkLE chunks

/-- `full_text` (`orchestrator.py` line 107): texts of the ordinal-sorted
chunks joined by a newline. -/
def full_text (chunks : List Payload) : String :=
  String.intercalate "\n" ((sorted_chunks chunks).map Payload.text)

/-! ### Grouping the scrolled points by filename

`summarize_all_documents` partitions the scrolled payloads into
`docs = defaultdict(list)` keyed by `payload['filename']`
(`orchestrator.py` lines 101-102).  A Python dict keeps keys in first-insertion
order, and `append` keeps each group in scroll order; the fold below does
exactly that on an association list. -/

/-- One `defaultdict` step: append the payload to its filename's group,
creating the group at the end on first encounter. -/
def groupStep (acc : List (String × List Payload)) (p : Payload) :
    List (String × List Payload) :=
  if p.filename ∈ acc.map Prod.fst then
    acc.map (fun d => if d.1 = p.filename then (d.1, d.2 ++ [p]) else d)
  else
    acc ++ [(p.filename, [p])]

/-- `docs` (`orchestrator.py` lines 101-102): the scrolled payloads grouped
by filename, groups in first-encounter order. -/
def groupByFilename (points : List Payload) : List (String × List Payload) :=
  points.foldl groupStep []

/-! ### Generic facts about insert-if-absent key folds

Both the `defaultdict` grouping above and the dict comprehension of
`challenge_statement` produce their key sequence by the same rule: append a
key when first seen, keep the existing position otherwise.  `dedupFirstAux`
computes that key sequence directly and the lemmas below characterise it. -/

/-- Insert a key at the end unless already present. -/
def insKey {α : Type} [DecidableEq α] (ks : List α) (k : α) : List α :=
  if k ∈ ks then ks else ks ++ [k]

/-- First-occurrence deduplication of `l`, skipping keys already in `seen`. -/
def dedupFirstAux {α : Type} [DecidableEq α] (seen : List α) : List α → List α
  | [] => []
  | a :: l =>
    if a ∈ seen then dedupFirstAux seen l
    else a :: dedupFirstAux (seen ++ [a]) l

/-- The distinct elements of `l` in order of first occurrence. -/
def dedupFirst {α : Type} [DecidableEq α] (l : List α) : List α :=
  dedupFirstAux [] l

/-! ### `POST /summarize-all/` (`orchestrator.py` lines 96-119)

The handler scrolls the collection with `limit=10000` (line 99), so it sees
only the first 10000 points of the store; it groups the scrolled payloads by
filename, produces one labelled summary per document, and — only when more
than one summary exists — issues an extra synthesis call.  Each
`model.generate_content` invocation is recorded as a `GenCall` tagged with
its call site. -/

/-- One Gemini invocation made by `summarize_all_documents`, carrying the
prompt that was sent: an individual per-document summary request
(line 108-109) or the final synthesis request (line 113-114). -/
inductive GenCall where
  | perDoc (prompt : String)
  | synth (prompt : String)
deriving DecidableEq, Repr

/-- Whether a recorded generator call is the synthesis-prompt call. -/
def GenCall.isSynth : GenCall → Bool
  | .perDoc _ => false
  | .synth _ => true

/-- The per-document prompt of `orchestrator.py` line 108. -/
def per_doc_prompt (filename ft : String) : String :=
  "Provide a concise summary of the text from " ++ squote ++ filename ++ squote
    ++ ":\n\n" ++ ft

/-- One labelled entry of `individual_summaries` (`orchestrator.py`
line 110). -/
def individual_summary (gen : String → String) (filename : String)
    (chunks : List Payload) : String :=
  "Summary for " ++ filename ++ ":\n" ++ gen (per_doc_prompt filename (full_text chunks)) ++ "\n"

/-- The synthesis prompt of `orchestrator.py` line 113. -/
def synthesis_prompt (all_summaries_text : String) : String :=
  "Create a single " ++ squote ++ "synthesis" ++ squote
    ++ " summary combining key points from the following summaries:\n\n"
    ++ all_summaries_text ++ "\n\nOverall Synthesis Summary:"

/-- The `limit` argument of `qdrant_client.scroll` at `orchestrator.py`
line 99: at most this many points are fetched. -/
def SCROLL_LIMIT : Nat := 10000

/-- `orchestrator.py` lines 100-117 applied to the scroll result
`all_points`, paired with the trace of generator calls it issues.  An
`Except.error (code, detail)` is a raised `HTTPException`.  `headD ""`
stands for `individual_summaries[0]`, which the guard `all_points` nonempty
makes safe. -/
def summarize_scrolled (all_points : List Payload) (gen : String → String) :
    Except (Nat × String) (String × List String) × List GenCall :=
  if all_points = [] then (Except.error (404, "No documents found to summarize."), [])
  else
    let docs := groupByFilename all_points
    let individual_summaries := docs.map (fun d => individual_summary gen d.1 d.2)
    let calls := docs.map (fun d => GenCall.perDoc (per_doc_prompt d.1 (full_text d.2)))
    if 1 < individual_summaries.length then
      let all_summaries_text := String.intercalate "\n---\n" individual_summaries
      (Except.ok (gen (synthesis_prompt all_summaries_text), docs.map Prod.fst),
        calls ++ [GenCall.synth (synthesis_prompt all_summaries_text)])
    else
      (Except.ok (individual_summaries.headD "", docs.map Prod.fst), calls)

/-- The body of the `try:` block of `summarize_all_documents`
(`orchestrator.py` lines 99-117): `scroll(..., limit=10000)` fetches at most
the first `SCROLL_LIMIT` points of the store, and the rest of the handler
runs on that window. -/
def summarize_all_core (points : List Payload) (gen : String → String) :
    Except (Nat × String) (String × List String) × List GenCall :=
  summarize_scrolled (points.take SCROLL_LIMIT) gen

/-- A store larger than the scroll window: `SCROLL_LIMIT` chunks of
"a.txt" followed by one chunk of "b.txt".  The scroll of
`/summarize-all/` sees only the "a.txt" chunks. -/
def oversizedStore : List Payload :=
  (List.range SCROLL_LIMIT).map (fun i => ⟨"filler", "a.txt", i⟩) ++ [⟨"tail", "b.txt", 0⟩]

/-- `str(e)` for a caught `HTTPException`: Starlette formats it as
`"{status_code}: {detail}"`. -/
def str_of_exc (e : Nat × String) : String := toString e.1 ++ ": " ++ e.2

/-- The whole `POST /summarize-all/` handler.  The `try/except Exception`
wrapper (`orchestrator.py` lines 118-119) catches *every* `Exception` —
including the `HTTPException(404)` raised inside the `try` block, since
FastAPI's `HTTPException` subclasses `Exception` — and re-raises it as a 500
whose detail is `str(e)`. -/
def summarize_all_documents (points : List Payload) (gen : String → String) :
    Except (Nat × String) (String × List String) :=
  match (summarize_all_core points gen).1 with
  | Except.ok out => Except.ok out
  | Except.error e => Except.error (500, str_of_exc e)

/-! ### `POST /chat/` (`orchestrator.py` lines 81-94) -/

/-- Lexicographic order used by Python's `sorted` on the filename strings. -/
def strLE (a b : String) : Prop := a ≤ b

instance : DecidableRel strLE :=
  fun a b => inferInstanceAs (Decidable (a ≤ b))

/-- Result of `chat_with_documents`, together with the prompts it sent to
the generator (empty list = the generator was never invoked). -/
structure ChatResponse where
  answer : String
  context_used : Option (List String)
  genCalls : List String
deriving DecidableEq, Repr

/-- `POST /chat/`: searches the top 5 chunks for the query embedding
(abstracted by `score`), short-circuits with a canned answer when the search
comes back empty, and otherwise sends one grounded prompt to the generator.
`sorted(list(set(...)))` becomes sort-after-dedup of the result filenames. -/
def chat_with_documents (store : List StoredPoint) (score : StoredPoint → Int)
    (query : String) (gen : String → String) : ChatResponse :=
  let search_results := search store score 5
  if search_results = [] then ⟨"Please upload a document first.", none, []⟩
  else
    let context := String.intercalate "\n---\n" (search_results.map (fun r => r.payload.text))
    let filenames :=
      List.insertionSort strLE ((search_results.map (fun r => r.payload.filename)).dedup)
    let prompt := "Context:\n---\n" ++ context ++ "\n---\n\nQuestion: " ++ query
      ++ "\n\nAnswer based only on the context:"
    ⟨gen prompt, some filenames, [prompt]⟩

/-! ### The merge step of `POST /challenge/` (`orchestrator.py` lines 135-143)

`combined_context = {result.id: result.payload['text'] for result in
supporting_results + opposing_results}` builds a Python dict: keys appear in
first-insertion order, and a repeated key keeps its position while its value
is overwritten by the later occurrence.  `dictUpd` is one comprehension step
over an association list. -/

/-- One dict-comprehension step: overwrite the value if the key exists,
append the binding otherwise. -/
def dictUpd {α β : Type} [DecidableEq α] (m : List (α × β)) (kv : α × β) :
    List (α × β) :=
  if kv.1 ∈ m.map Prod.fst then
    m.map (fun p => if p.1 = kv.1 then (p.1, kv.2) else p)
  else
    m ++ [kv]

/-- A Python dict built from a list of key-value pairs. -/
def dictOfList {α β : Type} [DecidableEq α] (l : List (α × β)) : List (α × β) :=
  l.foldl dictUpd []

/-- `combined_context` (`orchestrator.py` line 142). -/
def combined_context (results : List StoredPoint) : List (Nat × String) :=
  dictOfList (results.map (fun r => (r.id, r.payload.text)))

/-- The merged retrieval context of `challenge_statement`: the dict built
over the concatenation `supporting_results + opposing_results`. -/
def challenge_merge (supporting_results opposing_results : List StoredPoint) :
    List (Nat × String) :=
  combined_context (supporting_results ++ opposing_results)

/-- `context_text` (`orchestrator.py` line 143): the dict's values joined
with the `---` separator. -/
def context_text (supporting_results opposing_results : List StoredPoint) : String :=
  String.intercalate "\n---\n"
    ((challenge_merge supporting_results opposing_results).map Prod.snd)

/-! ### The frontend ingestion loop (`frontendApp.py` lines 100-105)

`chunks = [text[i:i + CHUNK_SIZE_CHARS] for i in range(0, len(text),
CHUNK_SIZE_CHARS)]` slices the extracted text into consecutive windows of at
most `CHUNK_SIZE_CHARS` characters, and the `enumerate` loop uploads slice
`i` with `chunk_index = i`.  Text is modelled as `List Char` so that the
character slicing is explicit. -/

def CHUNK_SIZE_CHARS : Nat := 2000

/-- The comprehension `[text[i:i + CHUNK_SIZE_CHARS] for i in range(0,
len(text), CHUNK_SIZE_CHARS)]`: successive windows of `CHUNK_SIZE_CHARS`
characters, the last one possibly shorter, none empty. -/
def chunks_of_text (cs : List Char) : List (List Char) :=
  if h : cs = [] then []
  else cs.take CHUNK_SIZE_CHARS :: chunks_of_text (cs.drop CHUNK_SIZE_CHARS)
termination_by cs.length
decreasing_by
  have hpos : 0 < cs.length := List.length_pos.mpr h
  simp only [List.length_drop]
  exact Nat.sub_lt hpos (by decide)

/-- The body of `for i, chunk in enumerate(chunks): requests.post(...)`,
started at index `i`: the sequence of `TextChunk` requests sent to
`/upload-chunk/`. -/
def uploadRequestsFrom (filename : String) : Nat → List (List Char) → List TextChunk
  | _, [] => []
  | i, c :: rest => ⟨String.mk c, filename, i⟩ :: uploadRequestsFrom filename (i + 1) rest

/-- All `/upload-chunk/` requests issued for one extracted text
(`frontendApp.py` lines 101-104). -/
def uploadRequests (text : List Char) (filename : String) : List TextChunk :=
  uploadRequestsFrom filename 0 (chunks_of_text text)

/-! ### The HTTP surface of the orchestrator

The seven routes registered on the FastAPI `app`, with the request body
fields of their pydantic models and their possible response key sets (for
`/chat/`, the canned-empty-store and regular responses differ). -/

/-- One registered route. -/
structure Endpoint where
  path : String
  request_fields : List String
  response_fields : List (List String)
deriving DecidableEq, Repr

/-- Every `@app.post` route of `orchestrator.py`. -/
def endpoints : List Endpoint :=
  [⟨"/new-session/", [], [["status", "message"]]⟩,
   ⟨"/upload-chunk/", ["chunk", "filename", "chunk_index"], [["status"]]⟩,
   ⟨"/delete-document/", ["filename"], [["status", "message"]]⟩,
   ⟨"/chat/", ["query"], [["answer"], ["answer", "context_used"]]⟩,
   ⟨"/summarize-all/", [], [["summary", "source_documents"]]⟩,
   ⟨"/translate/", ["text", "language"], [["translated_text"]]⟩,
   ⟨"/challenge/", ["statement"], [["answer"]]⟩]

/-- A single-document summarize operation: an endpoint whose request is just
a filename and whose response pairs a summary with the filename. -/
def IsSummarizeOne (e : Endpoint) : Prop :=
  e.request_fields = ["filename"]
    ∧ ∃ rf ∈ e.response_fields, "summary" ∈ rf ∧ "filename" ∈ rf

instance : DecidablePred IsSummarizeOne := fun e => by
  unfold IsSummarizeOne
  infer_instance

/-! ### Supporting lemmas -/

theorem matchesDeleteFilter_eq_false (fname : String) (p : Payload) :
    matchesDeleteFilter fname p = false := rfl

/-- The delete filter keys on `payload.filename`, a field no stored payload
has (uploads write the field `filename`, the same key the code indexes via
`create_payload_index`), so the filter matches no point and deletion leaves
the store unchanged. -/
theorem delete_document_noop (store : List StoredPoint) (fname : String) :
    delete_document store fname = store := by
  unfold delete_document
  simp [matchesDeleteFilter_eq_false]

theorem mem_dedupFirstAux {α : Type} [DecidableEq α] {x : α} :
    ∀ {l seen : List α}, x ∈ dedupFirstAux seen l ↔ x ∈ l ∧ x ∉ seen := by
  intro l
  induction l with
  | nil => intro seen; simp [dedupFirstAux]
  | cons a l ih =>
    intro seen
    by_cases ha : a ∈ seen
    · rw [dedupFirstAux, if_pos ha, ih]
      constructor
      · exact fun ⟨h1, h2⟩ => ⟨List.mem_cons_of_mem a h1, h2⟩
      · rintro ⟨h1, h2⟩
        rcases List.mem_cons.mp h1 with rfl | h1
        · exact absurd ha h2
        · exact ⟨h1, h2⟩
    · rw [dedupFirstAux, if_neg ha]
      by_cases hx : x = a
      · subst hx
        simp [ha]
      · rw [List.mem_cons]
        rw [ih]
        simp [hx, List.mem_append]

theorem mem_dedupFirst {α : Type} [DecidableEq α] {x : α} {l : List α} :
    x ∈ dedupFirst l ↔ x ∈ l := by
  rw [dedupFirst, mem_dedupFirstAux]
  simp

theorem nodup_dedupFirstAux {α : Type} [DecidableEq α] :
    ∀ (l seen : List α), (dedupFirstAux seen l).Nodup := by
  intro l
  induction l with
  | nil => intro seen; simp [dedupFirstAux]
  | cons a l ih =>
    intro seen
    by_cases ha : a ∈ seen
    · rw [dedupFirstAux, if_pos ha]; exact ih seen
    · rw [dedupFirstAux, if_neg ha]
      refine List.nodup_cons.mpr ⟨?_, ih (seen ++ [a])⟩
      intro hmem
      have := (mem_dedupFirstAux.mp hmem).2
      exact this (by simp)

theorem nodup_dedupFirst {α : Type} [DecidableEq α] (l : List α) :
    (dedupFirst l).Nodup :=
  nodup_dedupFirstAux l []

/-- A fold of `insKey` appends exactly the not-yet-seen keys in
first-occurrence order. -/
theorem foldl_insKey_eq {α : Type} [DecidableEq α] :
    ∀ (l ks : List α), l.foldl insKey ks = ks ++ dedupFirstAux ks l := by
  intro l
  induction l with
  | nil => intro ks; simp [dedupFirstAux]
  | cons a l ih =>
    intro ks
    by_cases ha : a ∈ ks
    · rw [List.foldl_cons, insKey, if_pos ha, ih, dedupFirstAux, if_pos ha]
    · rw [List.foldl_cons, insKey, if_neg ha, ih, dedupFirstAux, if_neg ha]
      simp

/-- The keys of the filename grouping are the distinct filenames in
first-encounter order. -/
theorem groupByFilename_keys (points : List Payload) :
    (groupByFilename points).map Prod.fst = dedupFirst (points.map Payload.filename) := by
  have main : ∀ (l : List Payload) (acc : List (String × List Payload)),
      (l.foldl groupStep acc).map Prod.fst = (l.map Payload.filename).foldl insKey (acc.map Prod.fst) := by
    intro l
    induction l with
    | nil => intro acc; simp
    | cons p l ih =>
      intro acc
      rw [List.foldl_cons, List.map_cons, List.foldl_cons, ih]
      congr 1
      unfold groupStep insKey
      by_cases hp : p.filename ∈ acc.map Prod.fst
      · rw [if_pos hp, if_pos hp, List.map_map]
        apply List.map_congr_left
        intro d _
        by_cases hd : d.1 = p.filename <;> simp [hd]
      · rw [if_neg hp, if_neg hp]
        simp
  rw [groupByFilename, main, foldl_insKey_eq, dedupFirst]
  simp

/-- Grouping a corpus in which every payload carries the same filename `f`
yields the single group `(f, all points in scroll order)`. -/
theorem groupByFilename_single (f : String) (points : List Payload)
    (hall : ∀ p ∈ points, p.filename = f) (hne : points ≠ []) :
    groupByFilename points = [(f, points)] := by
  have aux : ∀ (rest pre : List Payload), (∀ p ∈ rest, p.filename = f) →
      rest.foldl groupStep [(f, pre)] = [(f, pre ++ rest)] := by
    intro rest
    induction rest with
    | nil => intro pre _; simp
    | cons p rest ih =>
      intro pre hall2
      have hpf : p.filename = f := hall2 p (List.mem_cons_self p rest)
      rw [List.foldl_cons]
      have hstep : groupStep [(f, pre)] p = [(f, pre ++ [p])] := by
        unfold groupStep
        rw [if_pos (by simp [hpf])]
        simp [hpf]
      rw [hstep, ih (pre ++ [p]) (fun q hq => hall2 q (List.mem_cons_of_mem p hq))]
      simp
  match points, hne with
  | q :: rest, _ =>
    have hqf : q.filename = f := hall q (List.mem_cons_self q rest)
    rw [groupByFilename, List.foldl_cons]
    have hstep : groupStep [] q = [(f, [q])] := by
      unfold groupStep
      simp [hqf]
    rw [hstep, aux rest [q] (fun p hp => hall p (List.mem_cons_of_mem q hp))]
    simp

theorem countP_map_eq_zero {α β : Type} (p : β → Bool) (f : α → β) (l : List α)
    (h : ∀ x, p (f x) = false) : (l.map f).countP p = 0 := by
  induction l with
  | nil => rfl
  | cons a l ih => simp [List.countP_cons, h, ih]

theorem countP_map_eq_length {α β : Type} (p : β → Bool) (f : α → β) (l : List α)
    (h : ∀ x, p (f x) = true) : (l.map f).countP p = l.length := by
  induction l with
  | nil => rfl
  | cons a l ih => simp [List.countP_cons, h, ih]

/-- The key sequence of a dict fold is an `insKey` fold over the input
keys. -/
theorem foldl_dictUpd_keys {α β : Type} [DecidableEq α] :
    ∀ (l : List (α × β)) (m : List (α × β)),
      (l.foldl dictUpd m).map Prod.fst = (l.map Prod.fst).foldl insKey (m.map Prod.fst) := by
  intro l
  induction l with
  | nil => intro m; simp
  | cons kv l ih =>
    intro m
    rw [List.foldl_cons, List.map_cons, List.foldl_cons, ih]
    congr 1
    unfold dictUpd insKey
    by_cases hk : kv.1 ∈ m.map Prod.fst
    · rw [if_pos hk, if_pos hk, List.map_map]
      apply List.map_congr_left
      intro p _
      by_cases hp : p.1 = kv.1 <;> simp [hp]
    · rw [if_neg hk, if_neg hk]
      simp

/-- Every binding of the dict comes from the accumulator or the input
list. -/
theorem mem_foldl_dictUpd {α β : Type} [DecidableEq α] :
    ∀ (l : List (α × β)) (m : List (α × β)) (kv : α × β),
      kv ∈ l.foldl dictUpd m → kv ∈ m ∨ kv ∈ l := by
  intro l
  induction l with
  | nil => intro m kv h; exact Or.inl h
  | cons x l ih =>
    intro m kv h
    rcases ih (dictUpd m x) kv h with hin | hin
    · unfold dictUpd at hin
      by_cases hk : x.1 ∈ m.map Prod.fst
      · rw [if_pos hk] at hin
        rcases List.mem_map.mp hin with ⟨p, hp, hpe⟩
        by_cases hpx : p.1 = x.1
        · right
          rw [if_pos hpx] at hpe
          have : kv = x := by rw [← hpe, hpx]
          rw [this]
          exact List.mem_cons_self x l
        · left
          rw [if_neg hpx] at hpe
          rw [← hpe]
          exact hp
      · rw [if_neg hk] at hin
        rcases List.mem_append.mp hin with hm | hm
        · exact Or.inl hm
        · right
          rw [List.mem_singleton.mp hm]
          exact List.mem_cons_self x l
    · exact Or.inr (List.mem_cons_of_mem x hin)

/-- Concatenating the slices restores the original text. -/
theorem chunks_of_text_flatten (cs : List Char) : (chunks_of_text cs).flatten = cs := by
  generalize hn : cs.length = n
  induction n using Nat.strong_induction_on generalizing cs with
  | _ n ih =>
    rw [chunks_of_text]
    by_cases h : cs = []
    · simp [h]
    · rw [dif_neg h]
      subst hn
      rw [List.flatten_cons, ih (cs.drop CHUNK_SIZE_CHARS).length ?_ (cs.drop CHUNK_SIZE_CHARS) rfl]
      · exact List.take_append_drop CHUNK_SIZE_CHARS cs
      · have hpos : 0 < cs.length := List.length_pos.mpr h
        simp only [List.length_drop]
        exact Nat.sub_lt hpos (by decide)

/-- Every slice has at most `CHUNK_SIZE_CHARS` characters and none is
empty. -/
theorem chunks_of_text_bounds (cs : List Char) :
    ∀ c ∈ chunks_of_text cs, c.length ≤ CHUNK_SIZE_CHARS ∧ c ≠ [] := by
  generalize hn : cs.length = n
  induction n using Nat.strong_induction_on generalizing cs with
  | _ n ih =>
    rw [chunks_of_text]
    by_cases h : cs = []
    · simp [h]
    · rw [dif_neg h]
      intro c hc
      rcases List.mem_cons.mp hc with rfl | hc
      · constructor
        · rw [List.length_take]
          exact Nat.min_le_left _ _
        · intro hcontra
          rcases List.take_eq_nil_iff.mp hcontra with h0 | h0
          · exact absurd h0 (by decide)
          · exact h h0
      · subst hn
        refine ih (cs.drop CHUNK_SIZE_CHARS).length ?_ (cs.drop CHUNK_SIZE_CHARS) rfl c hc
        have hpos : 0 < cs.length := List.length_pos.mpr h
        simp only [List.length_drop]
        exact Nat.sub_lt hpos (by decide)

theorem uploadRequestsFrom_indices (filename : String) :
    ∀ (chunks : List (List Char)) (i : Nat),
      (uploadRequestsFrom filename i chunks).map TextChunk.chunk_index
        = List.range' i chunks.length := by
  intro chunks
  induction chunks with
  | nil => intro i; rfl
  | cons c rest ih =>
    intro i
    rw [uploadRequestsFrom, List.map_cons, ih (i + 1), List.length_cons, List.range'_succ]

theorem uploadRequestsFrom_chunks (filename : String) :
    ∀ (chunks : List (List Char)) (i : Nat),
      (uploadRequestsFrom filename i chunks).map (fun r => r.chunk.data) = chunks := by
  intro chunks
  induction chunks with
  | nil => intro i; rfl
  | cons c rest ih =>
    intro i
    rw [uploadRequestsFrom, List.map_cons, ih (i + 1)]

/-- `summarize_scrolled` on a scroll window holding exactly one filename:
the labelled individual summary is the final result verbatim, one
per-document generator call, no synthesis call. -/
theorem summarize_scrolled_single (all_points : List Payload) (gen : String → String)
    (f : String) (hne : all_points ≠ []) (hall : ∀ p ∈ all_points, p.filename = f) :
    (summarize_scrolled all_points gen).1
        = Except.ok (individual_summary gen f all_points, [f])
      ∧ (summarize_scrolled all_points gen).2.length = 1
      ∧ (summarize_scrolled all_points gen).2.countP GenCall.isSynth = 0 := by
  have hdocs := groupByFilename_single f all_points hall hne
  refine ⟨?_, ?_, ?_⟩ <;>
    simp [summarize_scrolled, if_neg hne, hdocs, GenCall.isSynth]

/-- `summarize_scrolled` on a scroll window holding exactly two distinct
filenames: exactly three generator calls — two per-document summaries and
one synthesis. -/
theorem summarize_scrolled_two (all_points : List Payload) (gen : String → String)
    (f₁ f₂ : String) (hne12 : f₁ ≠ f₂)
    (hall : ∀ p ∈ all_points, p.filename = f₁ ∨ p.filename = f₂)
    (hex1 : ∃ p ∈ all_points, p.filename = f₁)
    (hex2 : ∃ p ∈ all_points, p.filename = f₂) :
    (summarize_scrolled all_points gen).2.length = 3
      ∧ (summarize_scrolled all_points gen).2.countP GenCall.isSynth = 1
      ∧ (summarize_scrolled all_points gen).2.countP (fun c => !(GenCall.isSynth c)) = 2 := by
  obtain ⟨p1, hp1, hp1f⟩ := hex1
  obtain ⟨p2, hp2, hp2f⟩ := hex2
  have hnonempty : all_points ≠ [] := List.ne_nil_of_mem hp1
  have hkeys := groupByFilename_keys all_points
  have hnd : ((groupByFilename all_points).map Prod.fst).Nodup := by
    rw [hkeys]; exact nodup_dedupFirst _
  have hmemiff : ∀ x, x ∈ (groupByFilename all_points).map Prod.fst
      ↔ x ∈ all_points.map Payload.filename := by
    intro x; rw [hkeys]; exact mem_dedupFirst
  have hfin : ((groupByFilename all_points).map Prod.fst).toFinset
      = ({f₁, f₂} : Finset String) := by
    apply Finset.ext
    intro x
    rw [List.mem_toFinset, hmemiff]
    constructor
    · intro hx
      rcases List.mem_map.mp hx with ⟨p, hp, rfl⟩
      rcases hall p hp with h | h <;> simp [h]
    · intro hx
      rcases Finset.mem_insert.mp hx with rfl | hx
      · exact List.mem_map.mpr ⟨p1, hp1, hp1f⟩
      · rw [Finset.mem_singleton.mp hx]
        exact List.mem_map.mpr ⟨p2, hp2, hp2f⟩
  have hlen2 : ((groupByFilename all_points).map Prod.fst).length = 2 := by
    rw [← List.toFinset_card_of_nodup hnd, hfin]
    exact Finset.card_pair hne12
  have hdlen : (groupByFilename all_points).length = 2 := by
    rw [← hlen2, List.length_map]
  have hcond : 1 < ((groupByFilename all_points).map
      (fun d => individual_summary gen d.1 d.2)).length := by
    rw [List.length_map, hdlen]
    decide
  have hT : (summarize_scrolled all_points gen).2
      = (groupByFilename all_points).map
          (fun d => GenCall.perDoc (per_doc_prompt d.1 (full_text d.2)))
        ++ [GenCall.synth (synthesis_prompt (String.intercalate "\n---\n"
            ((groupByFilename all_points).map (fun d => individual_summary gen d.1 d.2))))] := by
    simp only [summarize_scrolled, if_neg hnonempty, if_pos hcond]
  refine ⟨?_, ?_, ?_⟩
  · rw [hT]
    simp [hdlen]
  · rw [hT, List.countP_append, countP_map_eq_zero _ _ _ (fun d => rfl)]
    simp [GenCall.isSynth]
  · rw [hT, List.countP_append, countP_map_eq_length _ _ _ (fun d => rfl)]
    simp [GenCall.isSynth, hdlen]

/-! ### Claims -/

/-- C2: for every document whose chunks are stored in any order (a
permutation of the originally ingested chunk list, whose `chunk_index`
fields are the 0-based slice positions), the per-document summarization step
sorts the fetched chunks by ordinal ascending, recovering exactly the
original slice order, and concatenates their texts with newline separation
— independent of the storage order. -/
theorem claim_C2 (original stored : List Payload)
    (hperm : List.Perm stored original)
    (hord : original.map Payload.chunk_index = List.range original.length) :
    sorted_chunks stored = original
      ∧ full_text stored = String.intercalate "\n" (original.map Payload.text) := by
  have hs : List.Sorted chunkLE (sorted_chunks stored) :=
    List.sorted_insertionSort chunkLE stored
  have hp : List.Perm (sorted_chunks stored) original :=
    (List.perm_insertionSort chunkLE stored).trans hperm
  have hndO : (original.map Payload.chunk_index).Nodup := by
    rw [hord]; exact List.nodup_range _
  have hndS : ((sorted_chunks stored).map Payload.chunk_index).Nodup :=
    ((hp.map Payload.chunk_index).nodup_iff).mpr hndO
  have hpairNe : List.Pairwise
      (fun a b : Payload => a.chunk_index ≠ b.chunk_index) (sorted_chunks stored) :=
    List.pairwise_map.mp hndS
  have hlt : List.Sorted chunkLT (sorted_chunks stored) :=
    (hs.and hpairNe).imp (fun hab => Nat.lt_of_le_of_ne hab.1 hab.2)
  have h1 : ∀ (i : Nat) (hi : i < original.length), original[i].chunk_index = i := by
    intro i hi
    have h2 := congrArg (fun l => l[i]?) hord
    simp only [List.getElem?_map, List.getElem?_eq_getElem hi,
      List.getElem?_range hi, Option.map_some'] at h2
    exact Option.some.inj h2
  have hltO : List.Sorted chunkLT original := by
    rw [List.Sorted, List.pairwise_iff_getElem]
    intro i j hi hj hij
    have hvi := h1 i hi
    have hvj := h1 j hj
    unfold chunkLT
    rw [hvi, hvj]
    exact hij
  have heq : sorted_chunks stored = original := List.eq_of_perm_of_sorted hp hlt hltO
  exact ⟨heq, by rw [full_text, heq]⟩

theorem claim_C2_witness :
    sorted_chunks [⟨"Grass is green.", "doc.txt", 1⟩, ⟨"The sky is blue.", "doc.txt", 0⟩]
        = [⟨"The sky is blue.", "doc.txt", 0⟩, ⟨"Grass is green.", "doc.txt", 1⟩]
      ∧ full_text [⟨"Grass is green.", "doc.txt", 1⟩, ⟨"The sky is blue.", "doc.txt", 0⟩]
        = String.intercalate "\n"
            ([⟨"The sky is blue.", "doc.txt", 0⟩,
              ⟨"Grass is green.", "doc.txt", 1⟩].map Payload.text) :=
  claim_C2
    [⟨"The sky is blue.", "doc.txt", 0⟩, ⟨"Grass is green.", "doc.txt", 1⟩]
    [⟨"Grass is green.", "doc.txt", 1⟩, ⟨"The sky is blue.", "doc.txt", 0⟩]
    (List.Perm.swap _ _ _) (by decide)

/-- C1 (amended): with exactly one distinct filename in the store,
`summarize_all_documents` returns that document's (labelled) individual
summary verbatim as the final summary, issuing exactly one generator call
and no synthesis-prompt call; with exactly two distinct filenames — and the
store within the scroll window (at most `SCROLL_LIMIT = 10000` chunks, the
bound of `scroll` at `orchestrator.py` line 99) — it issues exactly three
generator calls: two per-document summaries and one synthesis. -/
theorem claim_C1 :
    (∀ (points : List Payload) (gen : String → String) (f : String),
        points ≠ [] → (∀ p ∈ points, p.filename = f) →
        (summarize_all_core points gen).1
            = Except.ok (individual_summary gen f (points.take SCROLL_LIMIT), [f])
          ∧ (summarize_all_core points gen).2.length = 1
          ∧ (summarize_all_core points gen).2.countP GenCall.isSynth = 0)
    ∧ (∀ (points : List Payload) (gen : String → String) (f₁ f₂ : String),
        points.length ≤ SCROLL_LIMIT → f₁ ≠ f₂ →
        (∀ p ∈ points, p.filename = f₁ ∨ p.filename = f₂) →
        (∃ p ∈ points, p.filename = f₁) → (∃ p ∈ points, p.filename = f₂) →
        (summarize_all_core points gen).2.length = 3
          ∧ (summarize_all_core points gen).2.countP GenCall.isSynth = 1
          ∧ (summarize_all_core points gen).2.countP (fun c => !(GenCall.isSynth c)) = 2) := by
  constructor
  · intro points gen f hne hall
    have hne2 : points.take SCROLL_LIMIT ≠ [] := by
      rw [Ne, List.take_eq_nil_iff]
      rintro (h | h)
      · exact absurd h (by decide)
      · exact hne h
    have hall2 : ∀ p ∈ points.take SCROLL_LIMIT, p.filename = f :=
      fun p hp => hall p (List.take_subset _ _ hp)
    exact summarize_scrolled_single (points.take SCROLL_LIMIT) gen f hne2 hall2
  · intro points gen f₁ f₂ hlen hne12 hall hex1 hex2
    have htake : points.take SCROLL_LIMIT = points := List.take_of_length_le hlen
    simp only [summarize_all_core, htake]
    exact summarize_scrolled_two points gen f₁ f₂ hne12 hall hex1 hex2

theorem claim_C1_witness :
    ((summarize_all_core [⟨"The sky is blue.", "doc.txt", 0⟩] (fun p => "S")).1
        = Except.ok
            (individual_summary (fun p => "S") "doc.txt"
              ([⟨"The sky is blue.", "doc.txt", 0⟩].take SCROLL_LIMIT),
             ["doc.txt"])
      ∧ (summarize_all_core [⟨"The sky is blue.", "doc.txt", 0⟩] (fun p => "S")).2.length = 1
      ∧ (summarize_all_core [⟨"The sky is blue.", "doc.txt", 0⟩]
          (fun p => "S")).2.countP GenCall.isSynth = 0)
    ∧ ((summarize_all_core [⟨"x", "a.txt", 0⟩, ⟨"y", "b.txt", 0⟩]
          (fun p => "S")).2.length = 3
      ∧ (summarize_all_core [⟨"x", "a.txt", 0⟩, ⟨"y", "b.txt", 0⟩]
          (fun p => "S")).2.countP GenCall.isSynth = 1
      ∧ (summarize_all_core [⟨"x", "a.txt", 0⟩, ⟨"y", "b.txt", 0⟩]
          (fun p => "S")).2.countP (fun c => !(GenCall.isSynth c)) = 2) :=
  ⟨claim_C1.1 [⟨"The sky is blue.", "doc.txt", 0⟩] (fun p => "S") "doc.txt"
      (by decide) (by decide),
   claim_C1.2 [⟨"x", "a.txt", 0⟩, ⟨"y", "b.txt", 0⟩] (fun p => "S") "a.txt" "b.txt"
      (by decide) (by decide) (by decide) (by decide) (by decide)⟩

/-- C1 counterexample: the frozen claim asserts that *every* store with
exactly two distinct filenames yields exactly three generator calls, but
`scroll(limit=10000)` truncates the fetch: on `oversizedStore` — 10000
chunks of "a.txt" followed by one chunk of "b.txt", a store with exactly two
distinct filenames — the scroll window holds only "a.txt", so the handler
issues one generator call, not three. -/
theorem claim_C1_counterexample :
    ("a.txt" : String) ≠ "b.txt"
      ∧ (∀ p ∈ oversizedStore, p.filename = "a.txt" ∨ p.filename = "b.txt")
      ∧ (∃ p ∈ oversizedStore, p.filename = "a.txt")
      ∧ (∃ p ∈ oversizedStore, p.filename = "b.txt")
      ∧ (summarize_all_core oversizedStore (fun x => "S")).2.length = 1 := by
  have htake : oversizedStore.take SCROLL_LIMIT
      = (List.range SCROLL_LIMIT).map (fun i => (⟨"filler", "a.txt", i⟩ : Payload)) := by
    rw [oversizedStore]
    exact List.take_left' (by simp)
  have hne2 : oversizedStore.take SCROLL_LIMIT ≠ [] := by
    rw [htake]
    simp [SCROLL_LIMIT, List.range_eq_nil]
  have hall2 : ∀ p ∈ oversizedStore.take SCROLL_LIMIT, p.filename = "a.txt" := by
    rw [htake]
    intro p hp
    rcases List.mem_map.mp hp with ⟨i, hi, rfl⟩
    rfl
  refine ⟨by decide, ?_, ?_, ?_, ?_⟩
  · intro p hp
    simp only [oversizedStore] at hp
    rcases List.mem_append.mp hp with hp | hp
    · rcases List.mem_map.mp hp with ⟨i, hi, rfl⟩
      exact Or.inl rfl
    · rw [List.mem_singleton.mp hp]
      exact Or.inr rfl
  · refine ⟨⟨"filler", "a.txt", 0⟩, ?_, rfl⟩
    simp only [oversizedStore]
    refine List.mem_append.mpr (Or.inl (List.mem_map.mpr ⟨0, ?_, rfl⟩))
    simp [SCROLL_LIMIT]
  · refine ⟨⟨"tail", "b.txt", 0⟩, ?_, rfl⟩
    simp only [oversizedStore]
    exact List.mem_append.mpr (Or.inr (List.mem_singleton.mpr rfl))
  · exact (summarize_scrolled_single (oversizedStore.take SCROLL_LIMIT)
      (fun x => "S") "a.txt" hne2 hall2).2.1

/-- C3: the challenge merge keeps the supporting-pass results first and then
the opposing-pass results, deduplicated by chunk id in first-occurrence
order; a chunk returned by both passes contributes its text exactly once to
the merged context.  The hypothesis records that ids identify chunks (two
search results with the same Qdrant point id carry the same stored text). -/
theorem claim_C3 (s o : List StoredPoint)
    (hid : ∀ r ∈ s ++ o, ∀ q ∈ s ++ o, r.id = q.id → r.payload.text = q.payload.text) :
    (challenge_merge s o).map Prod.fst = dedupFirst ((s ++ o).map StoredPoint.id)
      ∧ ((challenge_merge s o).map Prod.fst).Nodup
      ∧ ∀ c ∈ s, c ∈ o →
          (c.id, c.payload.text) ∈ challenge_merge s o
            ∧ (challenge_merge s o).countP (fun e => e.1 == c.id) = 1 := by
  have hkeys : (challenge_merge s o).map Prod.fst
      = dedupFirst ((s ++ o).map StoredPoint.id) := by
    rw [challenge_merge, combined_context, dictOfList, foldl_dictUpd_keys, List.map_map]
    rw [show ([] : List (Nat × String)).map Prod.fst = [] from rfl, foldl_insKey_eq]
    rw [dedupFirst]
    rfl
  have hnd : ((challenge_merge s o).map Prod.fst).Nodup := by
    rw [hkeys]; exact nodup_dedupFirst _
  refine ⟨hkeys, hnd, ?_⟩
  intro c hcs hco
  have hcid : c.id ∈ (challenge_merge s o).map Prod.fst := by
    rw [hkeys, mem_dedupFirst]
    exact List.mem_map.mpr ⟨c, List.mem_append.mpr (Or.inl hcs), rfl⟩
  rcases List.mem_map.mp hcid with ⟨e, he, hefst⟩
  have hee : e ∈ (s ++ o).map (fun r => (r.id, r.payload.text)) := by
    rcases mem_foldl_dictUpd _ [] e he with h0 | h0
    · cases h0
    · exact h0
  rcases List.mem_map.mp hee with ⟨r, hr, hre⟩
  have hrid : r.id = c.id := by rw [← hefst, ← hre]
  have htext : r.payload.text = c.payload.text :=
    hid r hr c (List.mem_append.mpr (Or.inl hcs)) hrid
  have hepair : e = (c.id, c.payload.text) := by
    rw [← hre, hrid, htext]
  constructor
  · rw [← hepair]; exact he
  · have hcount : (challenge_merge s o).countP (fun e2 => e2.1 == c.id)
        = ((challenge_merge s o).map Prod.fst).count c.id := by
      rw [List.count, List.countP_map]
      rfl
    rw [hcount, List.count_eq_one_of_mem hnd hcid]

theorem claim_C3_witness :
    (challenge_merge [⟨7, ⟨"shared chunk", "a.txt", 0⟩⟩] [⟨7, ⟨"shared chunk", "a.txt", 0⟩⟩]).map Prod.fst
        = dedupFirst (([(⟨7, ⟨"shared chunk", "a.txt", 0⟩⟩ : StoredPoint)]
            ++ [(⟨7, ⟨"shared chunk", "a.txt", 0⟩⟩ : StoredPoint)]).map StoredPoint.id)
      ∧ ((challenge_merge [⟨7, ⟨"shared chunk", "a.txt", 0⟩⟩]
            [⟨7, ⟨"shared chunk", "a.txt", 0⟩⟩]).map Prod.fst).Nodup
      ∧ ∀ c ∈ [⟨7, ⟨"shared chunk", "a.txt", 0⟩⟩],
          c ∈ [(⟨7, ⟨"shared chunk", "a.txt", 0⟩⟩ : StoredPoint)] →
          (c.id, c.payload.text)
              ∈ challenge_merge [⟨7, ⟨"shared chunk", "a.txt", 0⟩⟩]
                  [⟨7, ⟨"shared chunk", "a.txt", 0⟩⟩]
            ∧ (challenge_merge [⟨7, ⟨"shared chunk", "a.txt", 0⟩⟩]
                  [⟨7, ⟨"shared chunk", "a.txt", 0⟩⟩]).countP (fun e => e.1 == c.id) = 1 :=
  claim_C3 [⟨7, ⟨"shared chunk", "a.txt", 0⟩⟩] [⟨7, ⟨"shared chunk", "a.txt", 0⟩⟩]
    (by decide)

/-- C4: for every non-empty extracted text, the upload loop splits it into
contiguous, non-overlapping slices of at most `CHUNK_SIZE_CHARS = 2000`
characters each (none empty, so the last is merely possibly shorter), in
original order — concatenating the slices restores the text — and uploads
slice `i` with `chunk_index = i`, the indices running `0..n-1` in slice
order. -/
theorem claim_C4 (text : List Char) (filename : String) (hne : text ≠ []) :
    chunks_of_text text ≠ []
      ∧ (∀ c ∈ chunks_of_text text, c.length ≤ CHUNK_SIZE_CHARS ∧ c ≠ [])
      ∧ (chunks_of_text text).flatten = text
      ∧ (uploadRequests text filename).map (fun r => r.chunk.data) = chunks_of_text text
      ∧ (uploadRequests text filename).map TextChunk.chunk_index
          = List.range (chunks_of_text text).length := by
  refine ⟨?_, chunks_of_text_bounds text, chunks_of_text_flatten text, ?_, ?_⟩
  · rw [chunks_of_text, dif_neg hne]
    exact List.cons_ne_nil _ _
  · rw [uploadRequests, uploadRequestsFrom_chunks]
  · rw [uploadRequests, uploadRequestsFrom_indices, List.range_eq_range']

theorem claim_C4_witness :
    chunks_of_text "hi".data ≠ []
      ∧ (∀ c ∈ chunks_of_text "hi".data, c.length ≤ CHUNK_SIZE_CHARS ∧ c ≠ [])
      ∧ (chunks_of_text "hi".data).flatten = "hi".data
      ∧ (uploadRequests "hi".data "doc.txt").map (fun r => r.chunk.data)
          = chunks_of_text "hi".data
      ∧ (uploadRequests "hi".data "doc.txt").map TextChunk.chunk_index
          = List.range (chunks_of_text "hi".data).length :=
  claim_C4 "hi".data "doc.txt" (by decide)

/-- C5: whenever the limit-5 retrieval for the chat query returns an empty
result sequence, `chat_with_documents` answers with the canned fallback
message and issues no generator call. -/
theorem claim_C5 (store : List StoredPoint) (score : StoredPoint → Int)
    (query : String) (gen : String → String)
    (hempty : search store score 5 = []) :
    chat_with_documents store score query gen
      = ⟨"Please upload a document first.", none, []⟩ := by
  simp only [chat_with_documents, hempty]
  rfl

theorem claim_C5_witness :
    chat_with_documents [] (fun r => 0) "What colour is the sky?" (fun p => "S")
      = ⟨"Please upload a document first.", none, []⟩ :=
  claim_C5 [] (fun r => 0) "What colour is the sky?" (fun p => "S") rfl

/-- C6: on an empty Chunk Store, `POST /summarize-all/` does NOT fail with a
404: the `HTTPException(status_code=404)` raised inside the `try` block is
caught by the handler's own blanket `except Exception` clause
(`fastapi.HTTPException` subclasses `Exception`) and re-raised as a 500
whose detail is the string form of the original 404.  The spec's claimed
404 is clearly the intent — the code itself constructs the 404 with detail
"No documents found to summarize." — so this is a slip in the code, not in
the claim. -/
theorem claim_C6 (gen : String → String) :
    summarize_all_documents [] gen
      = Except.error (500, "404: No documents found to summarize.") := rfl

/-- C7: the delete-document cascade never removes anything: the filter keys
on `payload.filename`, but stored payloads carry the field `filename` (the
very key the code's own `create_payload_index` declares), so the filter
matches no point.  After a "successful" `/delete-document/` call for
"a.txt", the chunk of "a.txt" is still in the store, contradicting the
claimed cascade. -/
theorem claim_C7 :
    (∀ (store : List StoredPoint) (fname : String), delete_document store fname = store)
    ∧ delete_document [⟨1, ⟨"The sky is blue.", "a.txt", 0⟩⟩] "a.txt"
        = [⟨1, ⟨"The sky is blue.", "a.txt", 0⟩⟩] :=
  ⟨delete_document_noop, delete_document_noop _ _⟩

/-- C8: after `new_session` recreates the collection, retrieval returns the
empty sequence for every query scoring and every positive `k`, regardless of
the prior store. -/
theorem claim_C8 (prior : List StoredPoint) (score : StoredPoint → Int)
    (k : Nat) (hk : 0 < k) :
    search (new_session prior) score k = [] := by
  rw [new_session, init_collection, search]
  exact List.take_nil

theorem claim_C8_witness :
    search (new_session [⟨1, ⟨"old text", "old.txt", 0⟩⟩]) (fun r => 0) 5 = [] :=
  claim_C8 [⟨1, ⟨"old text", "old.txt", 0⟩⟩] (fun r => 0) 5 (by decide)

/-- C9 counterexample: the claim asserts the system exposes a
single-document summarize operation (request `{filename}`, response
`{summary, filename}`); no registered route has that shape. -/
theorem claim_C9_counterexample : ¬ ∃ e ∈ endpoints, IsSummarizeOne e := by
  decide

/-- C9 (amended): the system exposes no single-document summarize
operation; the only route whose request is just a filename is
`/delete-document/`, and summarization is exposed only corpus-wide via
`/summarize-all/`, which takes no filename and responds with
`{summary, source_documents}`. -/
theorem claim_C9 :
    (∀ e ∈ endpoints, ¬ IsSummarizeOne e)
      ∧ (endpoints.filter (fun e => e.request_fields = ["filename"])).map Endpoint.path
          = ["/delete-document/"]
      ∧ ∃ e ∈ endpoints, e.path = "/summarize-all/" ∧ e.request_fields = []
          ∧ e.response_fields = [["summary", "source_documents"]] := by
  decide

/-- C10: `upload_text_chunk` stores the filename with surrounding
whitespace stripped, while the delete filter's match value is the request
filename exactly as given; consequently, for a filename with leading or
trailing whitespace, a `/delete-document/` call with that same string
matches none of the chunks stored for it — the store is unchanged. -/
theorem claim_C10 (store : List StoredPoint) (newId : Nat) (item : TextChunk)
    (hws : strip item.filename ≠ item.filename) :
    (stored_payload item).filename = strip item.filename
      ∧ (stored_payload item).filename ≠ item.filename
      ∧ delete_document (upload_text_chunk store newId item) item.filename
          = upload_text_chunk store newId item :=
  ⟨rfl, hws, delete_document_noop _ _⟩

theorem claim_C10_witness :
    (stored_payload ⟨"The sky is blue.", " a.txt ", 0⟩).filename = strip " a.txt "
      ∧ (stored_payload ⟨"The sky is blue.", " a.txt ", 0⟩).filename ≠ " a.txt "
      ∧ delete_document (upload_text_chunk [] 1 ⟨"The sky is blue.", " a.txt ", 0⟩) " a.txt "
          = upload_text_chunk [] 1 ⟨"The sky is blue.", " a.txt ", 0⟩ :=
  claim_C10 [] 1 ⟨"The sky is blue.", " a.txt ", 0⟩ (by decide)

end DocQuery
